import Mathlib

/-!
Shallow embedding of the "Invasion of the Cow Snatchers" core
(`src/iotcs/src/lib.rs`): board objects, positions, the `Farm` board and its
text parser, and the `IotCS` search-node state with its move transition,
goal predicate and successor generation.

Machine integers of the source (`usize` coordinates, `i32` counters that are
only ever initialised to 0 and incremented) are modelled as `Nat`; the
source's mutable `&mut self` methods are modelled by explicit state passing:
`move_ufo` returns the (possibly mutated) state together with the
`Option<Pos>` result, mirroring a `&mut self` receiver plus return value.
-/

/-- The closed set of board-cell contents (`enum Object`). -/
inductive Object where
  | UFO
  | AzureCow
  | YellowCow
  | PurpleCow
  | OrangeCow
  | RedBull
  | Barn
  | Crop
  | Hay
  | Fence
  | Silo
  | Wall1
  | Wall2
  | Corner
  | Empty
  deriving DecidableEq

namespace Object

/-- Rust `Object::is_cow`. -/
def is_cow : Object → Bool
  | .AzureCow | .YellowCow | .PurpleCow | .OrangeCow => true
  | _ => false

/-- Rust `Object::is_bull`. -/
def is_bull : Object → Bool
  | .RedBull => true
  | _ => false

/-- Rust `Object::is_ufo`. -/
def is_ufo : Object → Bool
  | .UFO => true
  | _ => false

/-- Rust `Object::is_wall`: barriers plus the two wall glyphs (not `Corner`). -/
def is_wall : Object → Bool
  | .Barn | .Hay | .Crop | .Fence | .Wall1 | .Wall2 => true
  | _ => false

/-- Spec vocabulary: the four barrier strengths and their thresholds
(`some t` = barrier tolerating at most `t` carried items, as in the
`move_ufo` match arms; `none` = not a barrier-strength object). -/
def barrier_threshold : Object → Option Nat
  | .Barn => some 0
  | .Crop => some 1
  | .Fence => some 2
  | .Hay => some 3
  | _ => none

end Object

/-- Gameboard coordinate (`struct Pos`); all positions produced by parsing or
stepping have both components in `[0,6]`. -/
structure Pos where
  x : Nat
  y : Nat
  deriving DecidableEq

/-- Rust `Pos::xy`. -/
def Pos.xy (p : Pos) : Nat × Nat := (p.x, p.y)

/-- The cardinal directions (`enum Direction`). -/
inductive Direction where
  | North
  | South
  | West
  | East
  deriving DecidableEq

/-- Rust `Direction::values`, the fixed enumeration order. -/
def Direction.values : List Direction :=
  [Direction.North, Direction.South, Direction.West, Direction.East]

/-- Rust `Pos::step`: the in-bounds neighbour one cell away, or `none` off-board. -/
def Pos.step (p : Pos) (dir : Direction) : Option Pos :=
  match dir with
  | .North => if p.x = 0 then none else some ⟨p.x - 1, p.y⟩
  | .South => if p.x = 6 then none else some ⟨p.x + 1, p.y⟩
  | .West => if p.y = 0 then none else some ⟨p.x, p.y - 1⟩
  | .East => if p.y = 6 then none else some ⟨p.x, p.y + 1⟩

/-- A board layout: `[[Option<Object>; 7]; 7]`, modelled as a function. -/
def Layout : Type := Pos → Option Object

/-- Write one cell of a layout. -/
def setCell (L : Layout) (pos : Pos) (obj : Object) : Layout :=
  fun q => if q = pos then some obj else L q

/-- The immutable board (`struct Farm`). -/
structure Farm where
  layout : Layout
  ufo_pos : Pos
  cow_count : Nat

namespace Farm

/-- Rust `Farm::new`. -/
def new : Farm := ⟨fun _ => none, ⟨0, 0⟩, 0⟩

/-- Rust `Farm::get`. -/
def get (f : Farm) (pos : Pos) : Option Object := f.layout pos

/-- Rust `Farm::get` after `Farm::get_mut` assignment: write a cell. -/
def set (f : Farm) (pos : Pos) (obj : Object) : Farm :=
  { f with layout := setCell f.layout pos obj }

/-- Rust `Farm::current_ufo_pos`. -/
def current_ufo_pos (f : Farm) : Pos := f.ufo_pos

/-- Rust `Farm::get_cow_count`. -/
def get_cow_count (f : Farm) : Nat := f.cow_count

end Farm

/-- The first-occurrence flags and the running wall count of `Farm::from_str`. -/
structure Flags where
  ufo : Bool
  azure : Bool
  yellow : Bool
  purple : Bool
  orange : Bool
  redBull : Bool
  silo : Bool
  wallCount : Nat
  deriving DecidableEq

/-- All flags false, wall count 0, as at the start of `from_str`. -/
def Flags.init : Flags := ⟨false, false, false, false, false, false, false, 0⟩

/-- Rust `put_object_with_flag`: write the cell, fail on a repeated singleton,
record the UFO position and count cows. Returns the updated farm and the
new (necessarily `true`) flag value. -/
def put_object_with_flag (farm : Farm) (flag : Bool) (pos : Pos) (obj : Object) :
    Except Unit (Farm × Bool) :=
  let farm := farm.set pos obj
  if flag then .error ()
  else
    let farm := if obj = Object.UFO then { farm with ufo_pos := pos } else farm
    let farm := if obj.is_cow then { farm with cow_count := farm.cow_count + 1 } else farm
    .ok (farm, true)

/-- Rust `put_object`: write the cell, record the UFO position (dead branch, kept
for fidelity) and count wall cells. Returns the farm and new wall count. -/
def put_object (farm : Farm) (pos : Pos) (obj : Object) (wallCount : Nat) :
    Farm × Nat :=
  let farm := farm.set pos obj
  let farm := if obj = Object.UFO then { farm with ufo_pos := pos } else farm
  (farm, if obj.is_wall then wallCount + 1 else wallCount)

/-- One cell of the `from_str` loop body: dispatch on the character. -/
def processCell (farm : Farm) (fl : Flags) (pos : Pos) (c : Char) :
    Except Unit (Farm × Flags) :=
  match c with
  | 'U' => (put_object_with_flag farm fl.ufo pos Object.UFO).map
      (fun r => (r.1, { fl with ufo := r.2 }))
  | 'A' => (put_object_with_flag farm fl.azure pos Object.AzureCow).map
      (fun r => (r.1, { fl with azure := r.2 }))
  | 'Y' => (put_object_with_flag farm fl.yellow pos Object.YellowCow).map
      (fun r => (r.1, { fl with yellow := r.2 }))
  | 'P' => (put_object_with_flag farm fl.purple pos Object.PurpleCow).map
      (fun r => (r.1, { fl with purple := r.2 }))
  | 'O' => (put_object_with_flag farm fl.orange pos Object.OrangeCow).map
      (fun r => (r.1, { fl with orange := r.2 }))
  | 'R' => (put_object_with_flag farm fl.redBull pos Object.RedBull).map
      (fun r => (r.1, { fl with redBull := r.2 }))
  | 'B' =>
      let r := put_object farm pos Object.Barn fl.wallCount
      .ok (r.1, { fl with wallCount := r.2 })
  | 'C' =>
      let r := put_object farm pos Object.Crop fl.wallCount
      .ok (r.1, { fl with wallCount := r.2 })
  | 'H' =>
      let r := put_object farm pos Object.Hay fl.wallCount
      .ok (r.1, { fl with wallCount := r.2 })
  | 'F' =>
      let r := put_object farm pos Object.Fence fl.wallCount
      .ok (r.1, { fl with wallCount := r.2 })
  | 'S' => (put_object_with_flag farm fl.silo pos Object.Silo).map
      (fun r => (r.1, { fl with silo := r.2 }))
  | '|' =>
      let r := put_object farm pos Object.Wall1 fl.wallCount
      .ok (r.1, { fl with wallCount := r.2 })
  | '-' =>
      let r := put_object farm pos Object.Wall2 fl.wallCount
      .ok (r.1, { fl with wallCount := r.2 })
  | '+' =>
      let r := put_object farm pos Object.Corner fl.wallCount
      .ok (r.1, { fl with wallCount := r.2 })
  | ' ' =>
      let r := put_object farm pos Object.Empty fl.wallCount
      .ok (r.1, { fl with wallCount := r.2 })
  | _ => .error ()

/-- The inner `for y in 0..7` loop of `from_str`, over the remaining column
indices `ys` of row `x`; consumes one character per cell. -/
def parseCells (farm : Farm) (fl : Flags) (x : Nat) (ys : List Nat)
    (cs : List Char) : Except Unit (Farm × Flags × List Char) :=
  match ys with
  | [] => .ok (farm, fl, cs)
  | y :: ys =>
    match cs with
    | [] => .error ()
    | c :: cs =>
      match processCell farm fl ⟨x, y⟩ c with
      | .error e => .error e
      | .ok (farm, fl) => parseCells farm fl x ys cs

/-- The outer `for x in 0..7` loop of `from_str`: each row is seven cells
followed by a mandatory newline character. -/
def parseRows (farm : Farm) (fl : Flags) (xs : List Nat) (cs : List Char) :
    Except Unit (Farm × Flags × List Char) :=
  match xs with
  | [] => .ok (farm, fl, cs)
  | x :: xs =>
    match parseCells farm fl x (List.range 7) cs with
    | .error e => .error e
    | .ok (farm, fl, cs) =>
      match cs with
      | '\n' :: cs => parseRows farm fl xs cs
      | _ => .error ()

/-- Rust `Farm::from_str`: parse the 7×7 grid, then check for trailing input,
presence of the red bull and the UFO, and a wall count of exactly 24. -/
def Farm.fromStr (cs : List Char) : Except Unit Farm :=
  match parseRows Farm.new Flags.init (List.range 7) cs with
  | .error e => .error e
  | .ok (farm, fl, rest) =>
    if rest ≠ [] then .error ()
    else if fl.redBull = false ∨ fl.ufo = false then .error ()
    else if fl.wallCount ≠ 24 then .error ()
    else .ok farm

/-- The per-search-node state (`struct IotCS`); the shared `&Farm` reference
is passed explicitly to each operation. -/
structure IotCS where
  ufo_pos : Pos
  cow_collection : List Object
  red_bull_picked : Bool
  deriving DecidableEq

namespace IotCS

/-- Rust `IotCS::new`. -/
def new (farm : Farm) : IotCS :=
  ⟨farm.current_ufo_pos, [], false⟩

/-- The first-stepped-cell barrier test of `move_ufo`: `true` exactly when
the match arm for `obj1` executes `return None`. -/
def wall_blocks (obj1 : Object) (len : Nat) : Bool :=
  match obj1 with
  | .Barn => decide (len > 0)
  | .Crop => decide (len > 1)
  | .Fence => decide (len > 2)
  | .Hay => decide (len > 3)
  | _ => false

/-- The final-cell match of `move_ufo` on `obj2`: `none` when landing is
illegal, otherwise the state with the pickup (if any) applied. -/
def collect (farm : Farm) (s : IotCS) (obj2 : Object) : Option IotCS :=
  match obj2 with
  | .Silo => none
  | .RedBull =>
    if s.red_bull_picked = false ∧ farm.get_cow_count ≠ s.cow_collection.length then
      none
    else if Object.RedBull ∈ s.cow_collection then some s
    else some { s with red_bull_picked := true,
                       cow_collection := s.cow_collection ++ [Object.RedBull] }
  | .OrangeCow | .PurpleCow | .AzureCow | .YellowCow =>
    if obj2 ∈ s.cow_collection then some s
    else some { s with cow_collection := s.cow_collection ++ [obj2] }
  | _ => some s

/-- Steps 3–5 of `move_ufo`: second step, final-cell validation/pickup, and
the commit of the new UFO position. -/
def moveLand (farm : Farm) (s : IotCS) (pos1 : Pos) (dir : Direction) :
    IotCS × Option Pos :=
  match pos1.step dir with
  | none => (s, none)
  | some pos2 =>
    match farm.get pos2 with
    | none => (s, none)
    | some obj2 =>
      match collect farm s obj2 with
      | none => (s, none)
      | some s2 => ({ s2 with ufo_pos := pos2 }, some pos2)

/-- Rust `IotCS::move_ufo`: returns the state after the call together with the
`Option<Pos>` result (the state component models the `&mut self` receiver:
it equals the input state whenever the result is `none`). -/
def move_ufo (farm : Farm) (s : IotCS) (pos : Pos) (dir : Direction) :
    IotCS × Option Pos :=
  match pos.step dir with
  | none => (s, none)
  | some pos1 =>
    match farm.get pos1 with
    | none => (s, none)
    | some obj1 =>
      if wall_blocks obj1 s.cow_collection.length then (s, none)
      else moveLand farm s pos1 dir

/-- Rust `IotCS::is_goal`. -/
def is_goal (farm : Farm) (s : IotCS) : Bool :=
  if farm.get_cow_count + 1 ≠ s.cow_collection.length then false
  else if s.ufo_pos.x = 6 ∨ s.ufo_pos.x = 0 ∨ s.ufo_pos.y = 0 ∨ s.ufo_pos.y = 6 then
    true
  else false

/-- Rust `IotCS::next`: for each direction in enumeration order, move a clone and
keep the `(direction, clone)` pair when the move succeeded. -/
def next (farm : Farm) (s : IotCS) : List (Direction × IotCS) :=
  Direction.values.foldl
    (fun acc dir =>
      let nb := s
      match move_ufo farm nb s.ufo_pos dir with
      | (nb2, some _) => acc ++ [(dir, nb2)]
      | (_, none) => acc)
    []

/-- States reachable from `IotCS::new farm` by successful moves (successor
generation moves a clone from the node's own `ufo_pos`). -/
inductive Reachable (farm : Farm) : IotCS → Prop where
  | init : Reachable farm (IotCS.new farm)
  | step {s : IotCS} {dir : Direction} {p : Pos} :
      Reachable farm s →
      (move_ufo farm s s.ufo_pos dir).2 = some p →
      Reachable farm (move_ufo farm s s.ufo_pos dir).1

end IotCS

/-- All 49 board positions, row-major. -/
def allPos : List Pos :=
  (List.range 7).flatMap (fun x => (List.range 7).map (fun y => ⟨x, y⟩))

/-- Number of cells of a layout whose object satisfies `p`. -/
def countCells (L : Layout) (p : Object → Bool) : Nat :=
  allPos.countP (fun q => match L q with | some o => p o | none => false)

/-- The parse-loop invariant: each singleton flag counts its object's cells,
and `wallCount` counts the `is_wall` cells. -/
def FlagCounts (L : Layout) (fl : Flags) : Prop :=
  countCells L Object.is_ufo = (if fl.ufo then 1 else 0) ∧
  countCells L (fun o => decide (o = Object.AzureCow)) = (if fl.azure then 1 else 0) ∧
  countCells L (fun o => decide (o = Object.YellowCow)) = (if fl.yellow then 1 else 0) ∧
  countCells L (fun o => decide (o = Object.PurpleCow)) = (if fl.purple then 1 else 0) ∧
  countCells L (fun o => decide (o = Object.OrangeCow)) = (if fl.orange then 1 else 0) ∧
  countCells L Object.is_bull = (if fl.redBull then 1 else 0) ∧
  countCells L (fun o => decide (o = Object.Silo)) = (if fl.silo then 1 else 0) ∧
  countCells L Object.is_wall = fl.wallCount

/-- Unwrap a parse result, defaulting to the empty farm. -/
def getOk (e : Except Unit Farm) : Farm :=
  match e with
  | .ok f => f
  | .error _ => Farm.new

/-- A valid example board: 24 wall cells, the UFO at `(3,3)`, all four cows,
the red bull at `(5,3)` and the silo at `(4,5)`. -/
def exGoodStr : List Char :=
  ("|||||||\n|||||||\n|||||||\n|||U AY\nPO   S \n   R   \n       \n").toList

/-- The example board parsed. -/
def exFarm : Farm := getOk (Farm.fromStr exGoodStr)

/-- An accepted board with no cows, no silo and no barrier-strength cells:
its 24 `is_wall` cells are all `Wall1` glyphs. -/
def exBadStr : List Char :=
  ("|||||||\n|||||||\n|||||||\n|||UR  \n       \n       \n       \n").toList

/-- The initial state on the example board. -/
def exState : IotCS := IotCS.new exFarm

/-- An example state already carrying the azure cow. -/
def exCowState : IotCS := ⟨⟨3, 3⟩, [Object.AzureCow], false⟩

/-- An example state whose red-bull flag is set. -/
def exPrizeState : IotCS := ⟨⟨3, 3⟩, [Object.RedBull], true⟩

/-! ## Theorems -/

/-- C4: `is_goal` holds iff the collected length is the cow count plus
one and the craft sits on the boundary (row or column 0 or 6); this covers
every state and every board, including boards with zero cows. -/
theorem C4_goal_iff (farm : Farm) (s : IotCS) :
    IotCS.is_goal farm s = true ↔
      (s.cow_collection.length = farm.cow_count + 1 ∧
        (s.ufo_pos.x = 0 ∨ s.ufo_pos.x = 6 ∨ s.ufo_pos.y = 0 ∨ s.ufo_pos.y = 6)) := by
  unfold IotCS.is_goal Farm.get_cow_count
  split
  · rename_i hne
    simp only [Bool.false_eq_true, false_iff]
    intro hc
    exact hne hc.1.symm
  · rename_i hne
    push_neg at hne
    split
    · rename_i hb
      simp only [true_iff]
      exact ⟨hne.symm, by tauto⟩
    · rename_i hb
      simp only [Bool.false_eq_true, false_iff]
      intro hc
      exact hb (by tauto)

/-- C2: at the first stepped-to cell: a barrier of threshold `t` makes
the move illegal exactly when the carried count exceeds `t` (0/1/2/3 for
Barn/Crop/Fence/Hay), and a non-barrier object there imposes no constraint:
the move proceeds to the landing phase unchanged. -/
theorem C2_first_cell_barrier (farm : Farm) (s : IotCS) (dir : Direction)
    (pos1 : Pos) (obj1 : Object)
    (h1 : s.ufo_pos.step dir = some pos1)
    (h2 : farm.get pos1 = some obj1) :
    (∀ t, obj1.barrier_threshold = some t →
      (s.cow_collection.length > t →
        IotCS.move_ufo farm s s.ufo_pos dir = (s, none)) ∧
      (s.cow_collection.length ≤ t →
        IotCS.move_ufo farm s s.ufo_pos dir = IotCS.moveLand farm s pos1 dir)) ∧
    (obj1.barrier_threshold = none →
      IotCS.move_ufo farm s s.ufo_pos dir = IotCS.moveLand farm s pos1 dir) := by
  have hm : IotCS.move_ufo farm s s.ufo_pos dir =
      if IotCS.wall_blocks obj1 s.cow_collection.length then (s, none)
      else IotCS.moveLand farm s pos1 dir := by
    unfold IotCS.move_ufo
    simp only [h1, h2]
  constructor
  · intro t ht
    constructor
    · intro hgt
      have hw : IotCS.wall_blocks obj1 s.cow_collection.length = true := by
        cases obj1 <;>
          simp_all [IotCS.wall_blocks, Object.barrier_threshold]
      rw [hm, hw]
      simp
    · intro hle
      have hw : IotCS.wall_blocks obj1 s.cow_collection.length = false := by
        cases obj1 <;>
          simp_all [IotCS.wall_blocks, Object.barrier_threshold]
      rw [hm, hw]
      simp
  · intro hnone
    have hw : IotCS.wall_blocks obj1 s.cow_collection.length = false := by
      cases obj1 <;> simp_all [IotCS.wall_blocks, Object.barrier_threshold]
    rw [hm, hw]
    simp

/-- C2 witness: on the example board, stepping North from the start
reaches a `Wall1` cell, which is not a barrier strength, so the move equals
its landing phase. -/
theorem C2_first_cell_barrier_witness :
    exState.ufo_pos.step Direction.North = some ⟨2, 3⟩ ∧
    exFarm.get ⟨2, 3⟩ = some Object.Wall1 ∧
    (Object.Wall1.barrier_threshold = none →
      IotCS.move_ufo exFarm exState exState.ufo_pos Direction.North =
        IotCS.moveLand exFarm exState ⟨2, 3⟩ Direction.North) :=
  ⟨by decide, by decide,
    (C2_first_cell_barrier exFarm exState Direction.North ⟨2, 3⟩ Object.Wall1
      (by decide) (by decide)).2⟩

/-- C6: whenever `move_ufo` yields no result, the state component of the
call (modelling the `&mut self` receiver) is exactly the input state: no
mutation is committed on a failed move. -/
theorem C6_failed_move_leaves_state (farm : Farm) (s : IotCS) (pos : Pos)
    (dir : Direction) (h : (IotCS.move_ufo farm s pos dir).2 = none) :
    (IotCS.move_ufo farm s pos dir).1 = s := by
  unfold IotCS.move_ufo at h ⊢
  rcases hs : pos.step dir with _ | pos1
  · simp [hs]
  · simp only [hs] at h ⊢
    rcases hg : farm.get pos1 with _ | obj1
    · simp [hg]
    · simp only [hg] at h ⊢
      by_cases hw : IotCS.wall_blocks obj1 s.cow_collection.length = true
      · simp [hw]
      · rw [Bool.not_eq_true] at hw
        simp only [hw, Bool.false_eq_true, if_false] at h ⊢
        unfold IotCS.moveLand at h ⊢
        rcases h2 : pos1.step dir with _ | pos2
        · simp [h2]
        · simp only [h2] at h ⊢
          rcases h3 : farm.get pos2 with _ | obj2
          · simp [h3]
          · simp only [h3] at h ⊢
            rcases h4 : IotCS.collect farm s obj2 with _ | s2
            · simp [h4]
            · simp [h4] at h

/-- C6 witness: on the example board, moving South from the start fails
(the red bull lies two cells South but no cow is collected yet), and the
state is unchanged. -/
theorem C6_failed_move_leaves_state_witness :
    (IotCS.move_ufo exFarm exState exState.ufo_pos Direction.South).2 = none ∧
    (IotCS.move_ufo exFarm exState exState.ufo_pos Direction.South).1 = exState :=
  ⟨by decide,
    C6_failed_move_leaves_state exFarm exState exState.ufo_pos Direction.South
      (by decide)⟩

/-- Folding the per-direction move over a direction list collects exactly the
successful `(direction, clone)` pairs, in list order. -/
theorem foldl_moves_eq (f : Direction → IotCS × Option Pos) (l : List Direction)
    (acc : List (Direction × IotCS)) :
    (l.foldl (fun acc dir =>
      match f dir with
      | (nb2, some _) => acc ++ [(dir, nb2)]
      | (_, none) => acc) acc)
    = acc ++ l.filterMap (fun dir =>
        match f dir with
        | (nb2, some _) => some (dir, nb2)
        | (_, none) => none) := by
  induction l generalizing acc with
  | nil => simp
  | cons d l ih =>
    simp only [List.foldl_cons, List.filterMap_cons]
    rcases hf : f d with ⟨nb, r⟩
    rcases r with _ | p
    · simp only [hf]
      rw [ih]
    · simp only [hf]
      rw [ih, List.append_assoc]
      simp

/-- C7: `next` returns, in the fixed enumeration order North, South,
West, East, exactly one `(direction, clone-after-move)` pair per direction
whose move succeeds, and is a deterministic function of the state. -/
theorem C7_next_enumeration (farm : Farm) (s : IotCS) :
    (IotCS.next farm s = Direction.values.filterMap (fun dir =>
      match IotCS.move_ufo farm s s.ufo_pos dir with
      | (nb2, some _) => some (dir, nb2)
      | (_, none) => none)) ∧
    (∀ s2 : IotCS, s = s2 → IotCS.next farm s = IotCS.next farm s2) := by
  constructor
  · have h := foldl_moves_eq (fun dir => IotCS.move_ufo farm s s.ufo_pos dir)
      Direction.values []
    simpa [IotCS.next] using h
  · intro s2 h
    rw [h]

/-- C7 witness: the enumeration equation evaluated on the example
board's initial state (successors North, West, East). -/
theorem C7_next_enumeration_witness :
    IotCS.next exFarm exState = Direction.values.filterMap (fun dir =>
      match IotCS.move_ufo exFarm exState exState.ufo_pos dir with
      | (nb2, some _) => some (dir, nb2)
      | (_, none) => none) :=
  (C7_next_enumeration exFarm exState).1

/-- A successful `move_ufo` decomposes into two in-board steps, a landing
object accepted by `collect`, and the committed position update. -/
theorem move_ufo_some_spec (farm : Farm) (s : IotCS) (pos : Pos)
    (dir : Direction) (p : Pos) (h : (IotCS.move_ufo farm s pos dir).2 = some p) :
    ∃ pos1 pos2 obj2 s2,
      pos.step dir = some pos1 ∧ pos1.step dir = some pos2 ∧
      farm.get pos2 = some obj2 ∧ IotCS.collect farm s obj2 = some s2 ∧
      (IotCS.move_ufo farm s pos dir).1 = { s2 with ufo_pos := pos2 } ∧
      p = pos2 := by
  unfold IotCS.move_ufo at h ⊢
  rcases hs : pos.step dir with _ | pos1
  · simp [hs] at h
  · simp only [hs] at h ⊢
    rcases hg : farm.get pos1 with _ | obj1
    · simp [hg] at h
    · simp only [hg] at h ⊢
      by_cases hw : IotCS.wall_blocks obj1 s.cow_collection.length = true
      · simp [hw] at h
      · rw [Bool.not_eq_true] at hw
        simp only [hw, Bool.false_eq_true, if_false] at h ⊢
        unfold IotCS.moveLand at h ⊢
        rcases h2 : pos1.step dir with _ | pos2
        · simp [h2] at h
        · simp only [h2] at h ⊢
          rcases h3 : farm.get pos2 with _ | obj2
          · simp [h3] at h
          · simp only [h3] at h ⊢
            rcases h4 : IotCS.collect farm s obj2 with _ | s2
            · simp [h4] at h
            · simp only [h4] at h ⊢
              refine ⟨pos1, pos2, obj2, s2, rfl, h2, h3, h4, rfl, ?_⟩
              simpa using h.symm

/-- Helper: `collect` never accepts the silo. -/
theorem collect_ne_silo (farm : Farm) (s s2 : IotCS) (o : Object)
    (h : IotCS.collect farm s o = some s2) : o ≠ Object.Silo := by
  intro he
  subst he
  simp [IotCS.collect] at h

/-- The red-bull branch of `collect`: legality and the two pickup outcomes. -/
theorem collect_redbull_spec (farm : Farm) (s s2 : IotCS)
    (h : IotCS.collect farm s Object.RedBull = some s2) :
    (s.red_bull_picked = true ∨ farm.get_cow_count = s.cow_collection.length) ∧
    (Object.RedBull ∉ s.cow_collection →
      s2.cow_collection = s.cow_collection ++ [Object.RedBull] ∧
      s2.red_bull_picked = true) ∧
    (Object.RedBull ∈ s.cow_collection → s2 = s) := by
  simp only [IotCS.collect] at h
  by_cases hc : s.red_bull_picked = false ∧
      farm.get_cow_count ≠ s.cow_collection.length
  · rw [if_pos hc] at h
    exact absurd h (by simp)
  · rw [if_neg hc] at h
    refine ⟨?_, ?_, ?_⟩
    · by_cases hb : s.red_bull_picked = true
      · exact Or.inl hb
      · rw [Bool.not_eq_true] at hb
        right
        by_contra hne
        exact hc ⟨hb, hne⟩
    · intro hmem
      rw [if_neg hmem] at h
      have h2 := (Option.some.injEq _ _).mp h
      rw [← h2]
      exact ⟨rfl, rfl⟩
    · intro hmem
      rw [if_pos hmem] at h
      exact ((Option.some.injEq _ _).mp h).symm

/-- C3: landing on the red bull: legal only if already picked or all
cows are collected; a first pickup appends it and sets the flag; a repeat
landing leaves the collected state unchanged. -/
theorem C3_prize_ordering (farm : Farm) (s : IotCS) (dir : Direction)
    (pos1 pos2 : Pos)
    (h1 : s.ufo_pos.step dir = some pos1)
    (h2 : pos1.step dir = some pos2)
    (h3 : farm.get pos2 = some Object.RedBull) :
    ((IotCS.move_ufo farm s s.ufo_pos dir).2.isSome = true →
      s.red_bull_picked = true ∨ farm.get_cow_count = s.cow_collection.length) ∧
    ((IotCS.move_ufo farm s s.ufo_pos dir).2.isSome = true →
      Object.RedBull ∉ s.cow_collection →
      (IotCS.move_ufo farm s s.ufo_pos dir).1.cow_collection
          = s.cow_collection ++ [Object.RedBull] ∧
      (IotCS.move_ufo farm s s.ufo_pos dir).1.red_bull_picked = true) ∧
    ((IotCS.move_ufo farm s s.ufo_pos dir).2.isSome = true →
      Object.RedBull ∈ s.cow_collection →
      (IotCS.move_ufo farm s s.ufo_pos dir).1.cow_collection = s.cow_collection ∧
      (IotCS.move_ufo farm s s.ufo_pos dir).1.red_bull_picked
          = s.red_bull_picked) := by
  have key : ∀ hsome : (IotCS.move_ufo farm s s.ufo_pos dir).2.isSome = true,
      ∃ s2, IotCS.collect farm s Object.RedBull = some s2 ∧
        (IotCS.move_ufo farm s s.ufo_pos dir).1 = { s2 with ufo_pos := pos2 } := by
    intro hsome
    obtain ⟨p, hp⟩ := Option.isSome_iff_exists.mp hsome
    obtain ⟨q1, q2, obj2, s2, e1, e2, e3, e4, e5, e6⟩ :=
      move_ufo_some_spec farm s s.ufo_pos dir p hp
    have hq1 : q1 = pos1 := by rw [h1] at e1; exact (Option.some.injEq _ _).mp e1.symm
    subst hq1
    have hq2 : q2 = pos2 := by rw [h2] at e2; exact (Option.some.injEq _ _).mp e2.symm
    subst hq2
    have hobj : obj2 = Object.RedBull := by
      rw [h3] at e3; exact ((Option.some.injEq _ _).mp e3).symm
    subst hobj
    exact ⟨s2, e4, e5⟩
  refine ⟨?_, ?_, ?_⟩
  · intro hsome
    obtain ⟨s2, hc, _⟩ := key hsome
    exact (collect_redbull_spec farm s s2 hc).1
  · intro hsome hmem
    obtain ⟨s2, hc, he⟩ := key hsome
    have := (collect_redbull_spec farm s s2 hc).2.1 hmem
    rw [he]
    exact this
  · intro hsome hmem
    obtain ⟨s2, hc, he⟩ := key hsome
    have h2s := (collect_redbull_spec farm s s2 hc).2.2 hmem
    subst h2s
    rw [he]
    exact ⟨rfl, rfl⟩

/-- C3 witness: moving South from `(3,3)` on the example board lands on
the red bull; with the flag already set the move is legal and appends the
bull is not needed (it is already in the collection), leaving it unchanged. -/
theorem C3_prize_ordering_witness :
    exPrizeState.ufo_pos.step Direction.South = some ⟨4, 3⟩ ∧
    (⟨4, 3⟩ : Pos).step Direction.South = some ⟨5, 3⟩ ∧
    exFarm.get ⟨5, 3⟩ = some Object.RedBull ∧
    (((IotCS.move_ufo exFarm exPrizeState exPrizeState.ufo_pos Direction.South).2.isSome = true →
      exPrizeState.red_bull_picked = true ∨
        exFarm.get_cow_count = exPrizeState.cow_collection.length) ∧
    ((IotCS.move_ufo exFarm exPrizeState exPrizeState.ufo_pos Direction.South).2.isSome = true →
      Object.RedBull ∉ exPrizeState.cow_collection →
      (IotCS.move_ufo exFarm exPrizeState exPrizeState.ufo_pos Direction.South).1.cow_collection
          = exPrizeState.cow_collection ++ [Object.RedBull] ∧
      (IotCS.move_ufo exFarm exPrizeState exPrizeState.ufo_pos Direction.South).1.red_bull_picked = true) ∧
    ((IotCS.move_ufo exFarm exPrizeState exPrizeState.ufo_pos Direction.South).2.isSome = true →
      Object.RedBull ∈ exPrizeState.cow_collection →
      (IotCS.move_ufo exFarm exPrizeState exPrizeState.ufo_pos Direction.South).1.cow_collection
          = exPrizeState.cow_collection ∧
      (IotCS.move_ufo exFarm exPrizeState exPrizeState.ufo_pos Direction.South).1.red_bull_picked
          = exPrizeState.red_bull_picked)) :=
  ⟨by decide, by decide, by decide,
    C3_prize_ordering exFarm exPrizeState Direction.South ⟨4, 3⟩ ⟨5, 3⟩
      (by decide) (by decide) (by decide)⟩

/-- Helper: `collect` on an already-collected cow, or on the red bull when it is
already in the collection, returns the state unchanged. -/
theorem collect_already_mem (farm : Farm) (s s2 : IotCS) (o : Object)
    (h : IotCS.collect farm s o = some s2)
    (hmem : (o.is_cow = true ∧ o ∈ s.cow_collection) ∨
      (o = Object.RedBull ∧ Object.RedBull ∈ s.cow_collection)) :
    s2 = s := by
  rcases hmem with ⟨hc, hm⟩ | ⟨he, hm⟩
  · cases o <;> simp only [Object.is_cow, Bool.false_eq_true] at hc <;>
      simp only [IotCS.collect, if_pos hm] at h <;>
      exact ((Option.some.injEq _ _).mp h).symm
  · subst he
    simp only [IotCS.collect, if_pos hm] at h
    split at h
    · exact absurd h (by simp)
    · exact ((Option.some.injEq _ _).mp h).symm

/-- C8: pickup is idempotent: a successful move whose final cell holds
an already-collected cow, or the red bull already in the collection, leaves
the collected-sequence length unchanged. -/
theorem C8_pickup_idempotent (farm : Farm) (s : IotCS) (dir : Direction)
    (pos1 pos2 : Pos) (obj2 : Object)
    (h1 : s.ufo_pos.step dir = some pos1)
    (h2 : pos1.step dir = some pos2)
    (h3 : farm.get pos2 = some obj2)
    (h4 : (obj2.is_cow = true ∧ obj2 ∈ s.cow_collection) ∨
      (obj2 = Object.RedBull ∧ Object.RedBull ∈ s.cow_collection))
    (h5 : (IotCS.move_ufo farm s s.ufo_pos dir).2.isSome = true) :
    (IotCS.move_ufo farm s s.ufo_pos dir).1.cow_collection.length
      = s.cow_collection.length := by
  obtain ⟨p, hp⟩ := Option.isSome_iff_exists.mp h5
  obtain ⟨q1, q2, o2, s2, e1, e2, e3, e4, e5, e6⟩ :=
    move_ufo_some_spec farm s s.ufo_pos dir p hp
  have hq1 : q1 = pos1 := by rw [h1] at e1; exact (Option.some.injEq _ _).mp e1.symm
  subst hq1
  have hq2 : q2 = pos2 := by rw [h2] at e2; exact (Option.some.injEq _ _).mp e2.symm
  subst hq2
  have hobj : o2 = obj2 := by rw [h3] at e3; exact ((Option.some.injEq _ _).mp e3).symm
  rw [hobj] at e4
  have hs2 : s2 = s := collect_already_mem farm s s2 obj2 e4 h4
  subst hs2
  rw [e5]

/-- C8 witness: on the example board, a state at `(3,3)` already
carrying the azure cow moves East and lands on the azure cow's cell: the
move succeeds and the collection length stays 1. -/
theorem C8_pickup_idempotent_witness :
    exCowState.ufo_pos.step Direction.East = some ⟨3, 4⟩ ∧
    (⟨3, 4⟩ : Pos).step Direction.East = some ⟨3, 5⟩ ∧
    exFarm.get ⟨3, 5⟩ = some Object.AzureCow ∧
    (Object.AzureCow.is_cow = true ∧ Object.AzureCow ∈ exCowState.cow_collection) ∧
    (IotCS.move_ufo exFarm exCowState exCowState.ufo_pos Direction.East).2.isSome = true ∧
    (IotCS.move_ufo exFarm exCowState exCowState.ufo_pos Direction.East).1.cow_collection.length
      = exCowState.cow_collection.length :=
  ⟨by decide, by decide, by decide, ⟨by decide, by decide⟩, by decide,
    C8_pickup_idempotent exFarm exCowState Direction.East ⟨3, 4⟩ ⟨3, 5⟩
      Object.AzureCow (by decide) (by decide) (by decide)
      (Or.inl ⟨by decide, by decide⟩) (by decide)⟩

/-- C5: a move whose final cell holds the silo always fails, and hence
every state reachable from the initial state (on a board whose start cell is
not the silo cell) has the craft off the silo cell. -/
theorem C5_silo_never_landed (farm : Farm) :
    (∀ (s : IotCS) (dir : Direction) (pos1 pos2 : Pos),
      s.ufo_pos.step dir = some pos1 → pos1.step dir = some pos2 →
      farm.get pos2 = some Object.Silo →
      (IotCS.move_ufo farm s s.ufo_pos dir).2 = none) ∧
    (farm.get (IotCS.new farm).ufo_pos ≠ some Object.Silo →
      ∀ s : IotCS, IotCS.Reachable farm s →
        farm.get s.ufo_pos ≠ some Object.Silo) := by
  constructor
  · intro s dir pos1 pos2 h1 h2 h3
    by_contra hne
    obtain ⟨p, hp⟩ := Option.ne_none_iff_exists.mp hne
    obtain ⟨q1, q2, o2, s2, e1, e2, e3, e4, _, _⟩ :=
      move_ufo_some_spec farm s s.ufo_pos dir p hp.symm
    have hq1 : q1 = pos1 := by rw [h1] at e1; exact (Option.some.injEq _ _).mp e1.symm
    subst hq1
    have hq2 : q2 = pos2 := by rw [h2] at e2; exact (Option.some.injEq _ _).mp e2.symm
    subst hq2
    have hobj : o2 = Object.Silo := by
      rw [h3] at e3; exact ((Option.some.injEq _ _).mp e3).symm
    exact collect_ne_silo farm s s2 o2 e4 hobj
  · intro hinit s hr
    induction hr with
    | init => exact hinit
    | step hr hm ih =>
      rename_i s' dir p
      obtain ⟨q1, q2, o2, s2, e1, e2, e3, e4, e5, e6⟩ :=
        move_ufo_some_spec farm s' s'.ufo_pos dir p hm
      rw [e5]
      show farm.get q2 ≠ some Object.Silo
      rw [e3]
      intro hcontra
      exact collect_ne_silo farm s' s2 o2 e4
        ((Option.some.injEq _ _).mp hcontra)

/-- C5 witness: the example board's start cell holds the UFO, not the
silo, so the initial state's position is not the silo cell. -/
theorem C5_silo_never_landed_witness :
    exFarm.get (IotCS.new exFarm).ufo_pos ≠ some Object.Silo :=
  (C5_silo_never_landed exFarm).2 (by decide) (IotCS.new exFarm)
    IotCS.Reachable.init

/-- Helper: `collect` preserves the collection invariant: no duplicates, only cows
and the red bull, and the flag tracks red-bull membership. -/
theorem collect_preserves_inv (farm : Farm) (s s2 : IotCS) (o : Object)
    (h : IotCS.collect farm s o = some s2)
    (hnd : s.cow_collection.Nodup)
    (hmem : ∀ x ∈ s.cow_collection, x.is_cow = true ∨ x = Object.RedBull)
    (hiff : s.red_bull_picked = true ↔ Object.RedBull ∈ s.cow_collection) :
    s2.cow_collection.Nodup ∧
    (∀ x ∈ s2.cow_collection, x.is_cow = true ∨ x = Object.RedBull) ∧
    (s2.red_bull_picked = true ↔ Object.RedBull ∈ s2.cow_collection) := by
  have nodup_app : ∀ (l : List Object) (a : Object), l.Nodup → a ∉ l →
      (l ++ [a]).Nodup := by
    intro l a ha hb
    rw [List.nodup_append]
    refine ⟨ha, List.nodup_singleton a, ?_⟩
    intro x hx hy
    rw [List.mem_singleton] at hy
    subst hy
    exact hb hx
  have pass_case : some s = some s2 →
      s2.cow_collection.Nodup ∧
      (∀ x ∈ s2.cow_collection, x.is_cow = true ∨ x = Object.RedBull) ∧
      (s2.red_bull_picked = true ↔ Object.RedBull ∈ s2.cow_collection) := by
    intro hh
    have h2 := (Option.some.injEq _ _).mp hh
    rw [← h2]
    exact ⟨hnd, hmem, hiff⟩
  have cow_case : ∀ c : Object, c.is_cow = true → c ≠ Object.RedBull →
      (if c ∈ s.cow_collection then some s
        else some { s with cow_collection := s.cow_collection ++ [c] }) = some s2 →
      s2.cow_collection.Nodup ∧
      (∀ x ∈ s2.cow_collection, x.is_cow = true ∨ x = Object.RedBull) ∧
      (s2.red_bull_picked = true ↔ Object.RedBull ∈ s2.cow_collection) := by
    intro c hc hcne hh
    split at hh
    · exact pass_case hh
    · rename_i hin
      have h2 := (Option.some.injEq _ _).mp hh
      rw [← h2]
      refine ⟨nodup_app _ _ hnd hin, ?_, ?_⟩
      · intro x hx
        rcases List.mem_append.mp hx with hx | hx
        · exact hmem x hx
        · rw [List.mem_singleton] at hx
          subst hx
          exact Or.inl hc
      · simp only [List.mem_append, List.mem_singleton]
        constructor
        · intro hb
          exact Or.inl (hiff.mp hb)
        · intro hb
          rcases hb with hb | hb
          · exact hiff.mpr hb
          · exact absurd hb.symm hcne
  cases o <;> simp only [IotCS.collect] at h
  case Silo => exact absurd h (by simp)
  case RedBull =>
    split at h
    · exact absurd h (by simp)
    · split at h
      · exact pass_case h
      · rename_i hin
        have h2 := (Option.some.injEq _ _).mp h
        rw [← h2]
        refine ⟨nodup_app _ _ hnd hin, ?_, ?_⟩
        · intro x hx
          rcases List.mem_append.mp hx with hx | hx
          · exact hmem x hx
          · rw [List.mem_singleton] at hx
            exact Or.inr hx
        · simp
  case AzureCow => exact cow_case Object.AzureCow rfl (by decide) h
  case YellowCow => exact cow_case Object.YellowCow rfl (by decide) h
  case PurpleCow => exact cow_case Object.PurpleCow rfl (by decide) h
  case OrangeCow => exact cow_case Object.OrangeCow rfl (by decide) h
  all_goals exact pass_case h

/-- C9: in every reachable state the collected sequence has no
duplicates and holds only cow objects or the red bull, and the
`red_bull_picked` flag is set exactly when the red bull is a member. -/
theorem C9_collection_invariant (farm : Farm) (s : IotCS)
    (h : IotCS.Reachable farm s) :
    s.cow_collection.Nodup ∧
    (∀ x ∈ s.cow_collection, x.is_cow = true ∨ x = Object.RedBull) ∧
    (s.red_bull_picked = true ↔ Object.RedBull ∈ s.cow_collection) := by
  induction h with
  | init =>
    refine ⟨List.nodup_nil, ?_, ?_⟩
    · intro x hx
      exact absurd hx (List.not_mem_nil x)
    · simp [IotCS.new]
  | step hr hm ih =>
    rename_i s' dir p
    obtain ⟨q1, q2, o2, s2, e1, e2, e3, e4, e5, e6⟩ :=
      move_ufo_some_spec farm s' s'.ufo_pos dir p hm
    rw [e5]
    exact collect_preserves_inv farm s' s2 o2 e4 ih.1 ih.2.1 ih.2.2

/-- C9 witness: the invariant instantiated at the initial state of the
example board. -/
theorem C9_collection_invariant_witness :
    (IotCS.new exFarm).cow_collection.Nodup ∧
    (∀ x ∈ (IotCS.new exFarm).cow_collection,
      x.is_cow = true ∨ x = Object.RedBull) ∧
    ((IotCS.new exFarm).red_bull_picked = true ↔
      Object.RedBull ∈ (IotCS.new exFarm).cow_collection) :=
  C9_collection_invariant exFarm (IotCS.new exFarm) IotCS.Reachable.init

theorem mem_allPos (p : Pos) : p ∈ allPos ↔ p.x < 7 ∧ p.y < 7 := by
  constructor
  · intro h
    simp only [allPos, List.mem_flatMap, List.mem_map, List.mem_range] at h
    obtain ⟨x, hx, y, hy, he⟩ := h
    rw [← he]
    exact ⟨hx, hy⟩
  · intro hp
    simp only [allPos, List.mem_flatMap, List.mem_map, List.mem_range]
    exact ⟨p.x, hp.1, p.y, hp.2, rfl⟩

theorem allPos_nodup : allPos.Nodup := by decide

theorem countP_update (l : List Pos) (pos : Pos) (g g' : Pos → Bool)
    (hnd : l.Nodup) (hmem : pos ∈ l) (hg : g pos = false)
    (hoth : ∀ q, q ≠ pos → g' q = g q) :
    l.countP g' = l.countP g + (if g' pos then 1 else 0) := by
  induction l with
  | nil => cases hmem
  | cons a l ih =>
    rw [List.countP_cons, List.countP_cons]
    rcases List.mem_cons.mp hmem with ha | ha
    · have hnotin : pos ∉ l := by
        rw [ha]
        exact (List.nodup_cons.mp hnd).1
      have hll : l.countP g' = l.countP g :=
        List.countP_congr (fun x hx => by
          rw [hoth x (fun he => hnotin (he ▸ hx))])
      rw [hll, ← ha, hg]
      simp
    · have hane : a ≠ pos := fun he => (List.nodup_cons.mp hnd).1 (he ▸ ha)
      rw [hoth a hane, ih (List.nodup_cons.mp hnd).2 ha]
      omega

theorem countCells_set (L : Layout) (pos : Pos) (o : Object) (p : Object → Bool)
    (hn : L pos = none) (hx : pos.x < 7) (hy : pos.y < 7) :
    countCells (setCell L pos o) p = countCells L p + (if p o then 1 else 0) := by
  unfold countCells
  have h := countP_update allPos pos
    (fun q => match L q with | some a => p a | none => false)
    (fun q => match setCell L pos o q with | some a => p a | none => false)
    allPos_nodup ((mem_allPos pos).mpr ⟨hx, hy⟩)
    (by simp [hn])
    (by
      intro q hq
      simp [setCell, hq])
  rw [h]
  simp [setCell]

theorem processCell_spec (farm : Farm) (fl : Flags) (pos : Pos) (c : Char)
    (f2 : Farm) (fl2 : Flags)
    (h : processCell farm fl pos c = .ok (f2, fl2))
    (hn : farm.layout pos = none) (hx : pos.x < 7) (hy : pos.y < 7)
    (hM : FlagCounts farm.layout fl) :
    FlagCounts f2.layout fl2 ∧
    (∀ q : Pos, q ≠ pos → f2.layout q = farm.layout q) ∧
    (f2.layout pos).isSome = true := by
  have hcs : ∀ (obj : Object) (p : Object → Bool),
      countCells (setCell farm.layout pos obj) p
        = countCells farm.layout p + (if p obj then 1 else 0) :=
    fun obj p => countCells_set farm.layout pos obj p hn hx hy
  unfold processCell at h
  split at h
  all_goals first
    | (simp only [put_object_with_flag] at h
       split at h
       · simp [Except.map] at h
       · rename_i hflag
         rw [Bool.not_eq_true] at hflag
         simp only [Except.map, Except.ok.injEq, Prod.mk.injEq] at h
         obtain ⟨hf2, hfl2⟩ := h
         subst hf2
         subst hfl2
         refine ⟨?_, ?_, ?_⟩
         · unfold FlagCounts at hM ⊢
           obtain ⟨m1, m2, m3, m4, m5, m6, m7, m8⟩ := hM
           simp [Farm.set, hcs, m1, m2, m3, m4, m5, m6, m7, m8, hflag,
             Object.is_ufo, Object.is_cow, Object.is_bull, Object.is_wall]
         · intro q hq
           simp [Farm.set, setCell, hq, Object.is_cow]
         · simp [Farm.set, setCell, Object.is_cow])
    | (simp only [put_object, Except.ok.injEq, Prod.mk.injEq] at h
       obtain ⟨hf2, hfl2⟩ := h
       subst hf2
       subst hfl2
       refine ⟨?_, ?_, ?_⟩
       · unfold FlagCounts at hM ⊢
         obtain ⟨m1, m2, m3, m4, m5, m6, m7, m8⟩ := hM
         simp [Farm.set, hcs, m1, m2, m3, m4, m5, m6, m7, m8,
           Object.is_ufo, Object.is_cow, Object.is_bull, Object.is_wall]
       · intro q hq
         simp [Farm.set, setCell, hq, Object.is_cow]
       · simp [Farm.set, setCell, Object.is_cow])
    | simp at h

theorem parseCells_spec (x : Nat) (ys : List Nat) :
    ∀ (farm : Farm) (fl : Flags) (cs : List Char) (f2 : Farm) (fl2 : Flags)
      (cs2 : List Char),
      parseCells farm fl x ys cs = .ok (f2, fl2, cs2) →
      ys.Nodup → (∀ y ∈ ys, y < 7) → x < 7 →
      FlagCounts farm.layout fl →
      (∀ y ∈ ys, farm.layout ⟨x, y⟩ = none) →
      FlagCounts f2.layout fl2 ∧
      (∀ q : Pos, q.x ≠ x → f2.layout q = farm.layout q) ∧
      (∀ q : Pos, (farm.layout q).isSome = true → (f2.layout q).isSome = true) ∧
      (∀ y ∈ ys, (f2.layout ⟨x, y⟩).isSome = true) := by
  induction ys with
  | nil =>
    intro farm fl cs f2 fl2 cs2 h _ _ _ hM _
    simp only [parseCells, Except.ok.injEq, Prod.mk.injEq] at h
    obtain ⟨h1, h2, h3⟩ := h
    subst h1
    subst h2
    exact ⟨hM, fun _ _ => rfl, fun _ hq => hq, by simp⟩
  | cons y ys ih =>
    intro farm fl cs f2 fl2 cs2 h hnd hy7 hx7 hM hnone
    cases cs with
    | nil => exact absurd h (by simp [parseCells])
    | cons c cs =>
      simp only [parseCells] at h
      rcases hpc : processCell farm fl ⟨x, y⟩ c with e | ⟨f1, fl1⟩
      · rw [hpc] at h
        exact absurd h (by simp)
      · rw [hpc] at h
        obtain ⟨hM1, hoth1, hsome1⟩ :=
          processCell_spec farm fl ⟨x, y⟩ c f1 fl1 hpc
            (hnone y (by simp)) hx7 (hy7 y (by simp)) hM
        have hnone1 : ∀ y2 ∈ ys, f1.layout ⟨x, y2⟩ = none := by
          intro y2 hy2
          have hne : (⟨x, y2⟩ : Pos) ≠ ⟨x, y⟩ := by
            intro he
            have hyy : y2 = y := congrArg Pos.y he
            exact (List.nodup_cons.mp hnd).1 (hyy ▸ hy2)
          rw [hoth1 _ hne]
          exact hnone y2 (by simp [hy2])
        obtain ⟨hMf, hothf, hmono, hrow⟩ :=
          ih f1 fl1 cs f2 fl2 cs2 h (List.nodup_cons.mp hnd).2
            (fun y2 h2 => hy7 y2 (by simp [h2])) hx7 hM1 hnone1
        refine ⟨hMf, ?_, ?_, ?_⟩
        · intro q hq
          rw [hothf q hq, hoth1 q (fun he => hq (congrArg Pos.x he))]
        · intro q hq
          by_cases he : q = (⟨x, y⟩ : Pos)
          · exact hmono q (by rw [he]; exact hsome1)
          · exact hmono q (by rw [hoth1 q he]; exact hq)
        · intro y2 hy2
          rcases List.mem_cons.mp hy2 with he | hy2
          · rw [he]
            exact hmono _ hsome1
          · exact hrow y2 hy2

theorem parseRows_spec (xs : List Nat) :
    ∀ (farm : Farm) (fl : Flags) (cs : List Char) (f2 : Farm) (fl2 : Flags)
      (cs2 : List Char),
      parseRows farm fl xs cs = .ok (f2, fl2, cs2) →
      xs.Nodup → (∀ x ∈ xs, x < 7) →
      FlagCounts farm.layout fl →
      (∀ x ∈ xs, ∀ y, y < 7 → farm.layout ⟨x, y⟩ = none) →
      FlagCounts f2.layout fl2 ∧
      (∀ q : Pos, (farm.layout q).isSome = true → (f2.layout q).isSome = true) ∧
      (∀ x ∈ xs, ∀ y, y < 7 → (f2.layout ⟨x, y⟩).isSome = true) := by
  induction xs with
  | nil =>
    intro farm fl cs f2 fl2 cs2 h _ _ hM _
    simp only [parseRows, Except.ok.injEq, Prod.mk.injEq] at h
    obtain ⟨h1, h2, h3⟩ := h
    subst h1
    subst h2
    exact ⟨hM, fun _ hq => hq, by simp⟩
  | cons x xs ih =>
    intro farm fl cs f2 fl2 cs2 h hnd hx7 hM hnone
    simp only [parseRows] at h
    rcases hpr : parseCells farm fl x (List.range 7) cs with e | ⟨f1, fl1, cs1⟩
    · rw [hpr] at h
      exact absurd h (by simp)
    · simp only [hpr] at h
      obtain ⟨hM1, hoth1, hmono1, hrow1⟩ :=
        parseCells_spec x (List.range 7) farm fl cs f1 fl1 cs1 hpr
          (List.nodup_range 7) (fun y hy => List.mem_range.mp hy)
          (hx7 x (by simp))
          hM (fun y hy => hnone x (by simp) y (List.mem_range.mp hy))
      split at h
      case _ =>
        obtain ⟨hMf, hmonof, hrowf⟩ :=
          ih f1 fl1 _ f2 fl2 cs2 h (List.nodup_cons.mp hnd).2
            (fun x2 h2 => hx7 x2 (by simp [h2])) hM1 (by
              intro x2 hx2 y hy
              have hne : x2 ≠ x := fun he => (List.nodup_cons.mp hnd).1 (he ▸ hx2)
              show f1.layout ⟨x2, y⟩ = none
              rw [hoth1 ⟨x2, y⟩ hne]
              exact hnone x2 (by simp [hx2]) y hy)
        refine ⟨hMf, ?_, ?_⟩
        · intro q hq
          exact hmonof q (hmono1 q hq)
        · intro x2 hx2 y hy
          rcases List.mem_cons.mp hx2 with he | hx2
          · rw [he]
            exact hmonof _ (hrow1 y (List.mem_range.mpr hy))
          · exact hrowf x2 hx2 y hy
      case _ =>
        exact absurd h (by simp)

theorem fromStr_spec (cs : List Char) (farm : Farm)
    (h : Farm.fromStr cs = .ok farm) :
    (∃ fl : Flags, FlagCounts farm.layout fl ∧ fl.ufo = true ∧
      fl.redBull = true ∧ fl.wallCount = 24) ∧
    (∀ x y, x < 7 → y < 7 → (farm.layout ⟨x, y⟩).isSome = true) := by
  unfold Farm.fromStr at h
  rcases hpr : parseRows Farm.new Flags.init (List.range 7) cs with e | ⟨f1, fl1, rest⟩
  · rw [hpr] at h
    exact absurd h (by simp)
  · simp only [hpr] at h
    split_ifs at h with ha hb hc
    injection h with hfarm
    subst hfarm
    push_neg at hb
    push_neg at hc
    have hM0 : FlagCounts Farm.new.layout Flags.init := by
      unfold FlagCounts
      decide
    obtain ⟨hM, hmono, hall⟩ :=
      parseRows_spec (List.range 7) Farm.new Flags.init cs f1 fl1 rest hpr
        (List.nodup_range 7) (fun x hx => List.mem_range.mp hx) hM0
        (fun x hx y hy => rfl)
    refine ⟨⟨fl1, hM, ?_, ?_, hc⟩,
      fun x y hx hy => hall x (List.mem_range.mpr hx) y hy⟩
    · cases hu : fl1.ufo
      · exact absurd hu hb.2
      · rfl
    · cases hr : fl1.redBull
      · exact absurd hr hb.1
      · rfl

theorem step_in_bounds (p p1 : Pos) (dir : Direction) (hx : p.x < 7)
    (hy : p.y < 7) (h : p.step dir = some p1) : p1.x < 7 ∧ p1.y < 7 := by
  cases dir
  case North =>
    simp only [Pos.step] at h
    split at h
    · exact absurd h (by simp)
    · obtain rfl : p1 = ⟨p.x - 1, p.y⟩ := by
        injection h with h
        rw [← h]
      exact ⟨by show p.x - 1 < 7; omega, by show p.y < 7; omega⟩
  case South =>
    simp only [Pos.step] at h
    split at h
    · exact absurd h (by simp)
    · rename_i hc
      obtain rfl : p1 = ⟨p.x + 1, p.y⟩ := by
        injection h with h
        rw [← h]
      exact ⟨by show p.x + 1 < 7; omega, by show p.y < 7; omega⟩
  case West =>
    simp only [Pos.step] at h
    split at h
    · exact absurd h (by simp)
    · obtain rfl : p1 = ⟨p.x, p.y - 1⟩ := by
        injection h with h
        rw [← h]
      exact ⟨by show p.x < 7; omega, by show p.y - 1 < 7; omega⟩
  case East =>
    simp only [Pos.step] at h
    split at h
    · exact absurd h (by simp)
    · rename_i hc
      obtain rfl : p1 = ⟨p.x, p.y + 1⟩ := by
        injection h with h
        rw [← h]
      exact ⟨by show p.x < 7; omega, by show p.y + 1 < 7; omega⟩

/-- C10: after a successful parse every in-bounds cell holds an object,
and hence the board lookups at any in-bounds stepped-to cell cannot fail. -/
theorem C10_board_total (cs : List Char) (farm : Farm)
    (h : Farm.fromStr cs = .ok farm) :
    (∀ x y, x < 7 → y < 7 → (farm.get ⟨x, y⟩).isSome = true) ∧
    (∀ (p p1 : Pos) (dir : Direction), p.x < 7 → p.y < 7 →
      p.step dir = some p1 → (farm.get p1).isSome = true) := by
  obtain ⟨_, hall⟩ := fromStr_spec cs farm h
  refine ⟨fun x y hx hy => hall x y hx hy, ?_⟩
  intro p p1 dir hx hy hstep
  obtain ⟨h1, h2⟩ := step_in_bounds p p1 dir hx hy hstep
  exact hall p1.x p1.y h1 h2

/-- C1 (amended): every accepted board has exactly one UFO cell and one
red-bull cell, at most one silo cell, at most one cell of each cow colour,
and exactly 24 `is_wall` cells (barriers plus the two wall glyphs). -/
theorem C1_parse_totals (cs : List Char) (farm : Farm)
    (h : Farm.fromStr cs = .ok farm) :
    countCells farm.layout Object.is_ufo = 1 ∧
    countCells farm.layout Object.is_bull = 1 ∧
    countCells farm.layout (fun o => decide (o = Object.Silo)) ≤ 1 ∧
    countCells farm.layout (fun o => decide (o = Object.AzureCow)) ≤ 1 ∧
    countCells farm.layout (fun o => decide (o = Object.YellowCow)) ≤ 1 ∧
    countCells farm.layout (fun o => decide (o = Object.PurpleCow)) ≤ 1 ∧
    countCells farm.layout (fun o => decide (o = Object.OrangeCow)) ≤ 1 ∧
    countCells farm.layout Object.is_wall = 24 := by
  obtain ⟨⟨fl, hM, hu, hr, hw⟩, _⟩ := fromStr_spec cs farm h
  obtain ⟨m1, m2, m3, m4, m5, m6, m7, m8⟩ := hM
  refine ⟨?_, ?_, ?_, ?_, ?_, ?_, ?_, ?_⟩
  · rw [m1, hu]
    simp
  · rw [m6, hr]
    simp
  · rw [m7]
    cases hs : fl.silo <;> simp
  · rw [m2]
    cases hs : fl.azure <;> simp
  · rw [m3]
    cases hs : fl.yellow <;> simp
  · rw [m4]
    cases hs : fl.purple <;> simp
  · rw [m5]
    cases hs : fl.orange <;> simp
  · rw [m8, hw]

/-- C1 counterexample: `exBadStr` is accepted by the parser, yet its
board has zero barrier-strength cells (all 24 `is_wall` cells are wall
glyphs), zero silo cells and zero cow cells. -/
theorem C1_parse_totals_counterexample :
    (Farm.fromStr exBadStr).isOk = true ∧
    countCells (getOk (Farm.fromStr exBadStr)).layout
      (fun o => (o.barrier_threshold).isSome) = 0 ∧
    countCells (getOk (Farm.fromStr exBadStr)).layout
      (fun o => decide (o = Object.Silo)) = 0 ∧
    countCells (getOk (Farm.fromStr exBadStr)).layout Object.is_cow = 0 :=
  ⟨by decide, by decide, by decide, by decide⟩

/-- C1 witness: the amended totals evaluated on the accepted example
board. -/
theorem C1_parse_totals_witness :
    Farm.fromStr exGoodStr = Except.ok exFarm ∧
    countCells exFarm.layout Object.is_ufo = 1 ∧
    countCells exFarm.layout Object.is_wall = 24 :=
  ⟨rfl, (C1_parse_totals exGoodStr exFarm rfl).1,
    (C1_parse_totals exGoodStr exFarm rfl).2.2.2.2.2.2.2⟩

/-- C10 witness: totality of the example board at a corner cell and at
the cell stepped to from the start. -/
theorem C10_board_total_witness :
    Farm.fromStr exGoodStr = Except.ok exFarm ∧
    (exFarm.get ⟨0, 0⟩).isSome = true ∧
    (exFarm.get ⟨2, 3⟩).isSome = true :=
  ⟨rfl, (C10_board_total exGoodStr exFarm rfl).1 0 0 (by decide) (by decide),
    (C10_board_total exGoodStr exFarm rfl).2 ⟨3, 3⟩ ⟨2, 3⟩ Direction.North
      (by decide) (by decide) (by decide)⟩
